import Mathlib

/-
  Verification development for the claude-unified-history-mcp repository.

  The TypeScript source is embedded shallowly:
  * machine-level JS numbers that hold epoch milliseconds are modelled as Int;
  * JS strings that are scanned character by character are modelled as List Char;
  * `Array.prototype.sort` (stable since ES2019) is modelled as
    List.insertionSort, which is stable and produces the same list as any
    stable sort for a total preorder comparator;
  * a `try / catch` producing an empty result is modelled as
    Except Unit _ together with `.toOption.getD`;
  * asynchronous fan-out (Promise.all) joins all results before anything is
    merged, so it is modelled as a plain List.map.
-/

namespace UnifiedHistory

/-- src/types.ts: `SourceType = 'code' | 'cloud'`. -/
inductive SourceType where
  | code
  | cloud
deriving DecidableEq, Repr

/-- A source argument of the tools: a concrete SourceType or the string `all`
(the default used by every tool). -/
inductive SourceFilter where
  | only (t : SourceType)
  | all
deriving DecidableEq, Repr

/-- src/types.ts `Session`.  `createdAt` / `updatedAt` are `Date` objects in the
source; they are modelled by their epoch-millisecond value (`getTime()`). -/
structure Session where
  id : String
  source : SourceType
  projectId : Option String := none
  projectName : Option String := none
  title : Option String := none
  createdAt : Int
  updatedAt : Int
  messageCount : Nat
deriving DecidableEq, Repr

/-- src/types.ts `Project`. -/
structure Project where
  id : String
  name : String
  path : Option String := none
  source : SourceType
  sessionCount : Nat
  messageCount : Nat
  lastActivity : Int
deriving DecidableEq, Repr

/-- src/types.ts `Message`.  The role is kept as the raw string that the code
computes (the TypeScript cast does not check it at runtime). -/
structure Message where
  id : String
  role : String
  content : List Char
  timestamp : Int
deriving DecidableEq, Repr

/-- src/types.ts `Conversation`. -/
structure Conversation where
  id : String
  source : SourceType
  session : Session
  messages : List Message
deriving DecidableEq, Repr

/-- src/types.ts `SearchResult`. -/
structure SearchResult where
  source : SourceType
  sessionId : String
  messageId : String
  snippet : List Char
  timestamp : Int
  score : Option Nat := none
deriving DecidableEq, Repr

/-- src/types.ts `PaginationInfo`. -/
structure PaginationInfo where
  total_count : Nat
  limit : Nat
  offset : Nat
  has_more : Bool
deriving DecidableEq, Repr

/-- src/sources/index.ts `ListSessionsOptions`.  Dates travel as the raw
strings the caller passed; each engine normalizes them itself. -/
structure ListSessionsOptions where
  projectPath : Option String := none
  projectId : Option String := none
  startDate : Option String := none
  endDate : Option String := none
  timezone : Option String := none
  limit : Nat := 50
  offset : Nat := 0
deriving DecidableEq, Repr

/-- src/sources/index.ts `GetConversationOptions`. -/
structure GetConversationOptions where
  sessionId : String
  messageTypes : Option (List String) := none
  limit : Nat := 100
  offset : Nat := 0
deriving DecidableEq, Repr

/-- src/sources/index.ts `SearchOptions`. -/
structure SearchOptions where
  query : List Char
  projectPath : Option String := none
  projectId : Option String := none
  startDate : Option String := none
  endDate : Option String := none
  timezone : Option String := none
  limit : Nat := 30
deriving DecidableEq, Repr

/-- src/sources/index.ts `ConversationSource`: the uniform contract.  Each
operation is an opaque function; a raised exception is an `Except.error`. -/
structure ConversationSource where
  type : SourceType
  isAvailable : Bool
  listProjectsFn : Unit → Except Unit (List Project)
  listSessionsFn : ListSessionsOptions → Except Unit (List Session)
  getConversationFn : GetConversationOptions → Except Unit (Option Conversation)
  searchFn : SearchOptions → Except Unit (List SearchResult)

/-- Comparator used whenever the code sorts sessions with
`(a, b) => b.updatedAt.getTime() - a.updatedAt.getTime()` (newest first). -/
def sessGe (a b : Session) : Prop := b.updatedAt ≤ a.updatedAt

instance : DecidableRel sessGe := fun _ _ => Int.decLe _ _

instance : IsTotal Session sessGe := ⟨fun a b => Int.le_total b.updatedAt a.updatedAt⟩

instance : IsTrans Session sessGe :=
  ⟨fun _ _ _ h1 h2 => Int.le_trans h2 h1⟩

/-- Comparator for projects: `(a, b) => b.lastActivity.getTime() - a.lastActivity.getTime()`. -/
def projGe (a b : Project) : Prop := b.lastActivity ≤ a.lastActivity

instance : DecidableRel projGe := fun _ _ => Int.decLe _ _

instance : IsTotal Project projGe := ⟨fun a b => Int.le_total b.lastActivity a.lastActivity⟩

instance : IsTrans Project projGe :=
  ⟨fun _ _ _ h1 h2 => Int.le_trans h2 h1⟩

/-- Comparator for search results: `(a, b) => b.timestamp.getTime() - a.timestamp.getTime()`. -/
def srGe (a b : SearchResult) : Prop := b.timestamp ≤ a.timestamp

instance : DecidableRel srGe := fun _ _ => Int.decLe _ _

instance : IsTotal SearchResult srGe := ⟨fun a b => Int.le_total b.timestamp a.timestamp⟩

instance : IsTrans SearchResult srGe :=
  ⟨fun _ _ _ h1 h2 => Int.le_trans h2 h1⟩

/-- Comparator for messages: `(a, b) => a.timestamp.getTime() - b.timestamp.getTime()` (ascending). -/
def msgLe (a b : Message) : Prop := a.timestamp ≤ b.timestamp

instance : DecidableRel msgLe := fun _ _ => Int.decLe _ _

instance : IsTotal Message msgLe := ⟨fun a b => Int.le_total a.timestamp b.timestamp⟩

instance : IsTrans Message msgLe :=
  ⟨fun _ _ _ h1 h2 => Int.le_trans h1 h2⟩

/-- Does a source pass the tool-level source filter
(`sourceFilter === 'all' || s.type === sourceFilter`)? -/
def matchesFilter (f : SourceFilter) (t : SourceType) : Bool :=
  match f with
  | .all => true
  | .only t0 => t = t0

/-- The `activeSources` computation shared by all fan-out tools:
`sources.filter(s => s.isAvailable() && (sourceFilter === 'all' || s.type === sourceFilter))`. -/
def activeFor (sources : List ConversationSource) (f : SourceFilter) :
    List ConversationSource :=
  sources.filter fun s => s.isAvailable && matchesFilter f s.type

/-- src/tools/list-sessions.ts `ListSessionsArgs`. -/
structure ListSessionsArgs where
  source : Option SourceFilter := none
  projectPath : Option String := none
  projectId : Option String := none
  startDate : Option String := none
  endDate : Option String := none
  timezone : Option String := none
  limit : Option Nat := none
  offset : Option Nat := none

/-- src/tools/list-sessions.ts `ListSessionsResponse`. -/
structure ListSessionsResponse where
  sessions : List Session
  pagination : PaginationInfo
deriving DecidableEq, Repr

/-- The per-source options object built by the listSessions tool: it asks each
source for `limit + offset` items at offset 0. -/
def sessionsFanoutOpts (args : ListSessionsArgs) : ListSessionsOptions :=
  { projectPath := args.projectPath
    projectId := args.projectId
    startDate := args.startDate
    endDate := args.endDate
    timezone := args.timezone
    limit := (args.limit.getD 50) + (args.offset.getD 0)
    offset := 0 }

/-- The concatenation of all per-source session lists
(`allSessions`), where a source that throws contributes `[]`
(`.catch(() => [])`). -/
def mergedSessions (sources : List ConversationSource) (args : ListSessionsArgs) :
    List Session :=
  ((activeFor sources (args.source.getD .all)).map
    fun s => ((s.listSessionsFn (sessionsFanoutOpts args)).toOption.getD [])).flatten

/-- src/tools/list-sessions.ts `listSessions`: fan out, merge, sort newest
first, paginate globally. -/
def listSessionsTool (sources : List ConversationSource) (args : ListSessionsArgs) :
    ListSessionsResponse :=
  let limit := args.limit.getD 50
  let offset := args.offset.getD 0
  let sorted := List.insertionSort sessGe (mergedSessions sources args)
  let totalCount := sorted.length
  { sessions := (sorted.drop offset).take limit
    pagination :=
      { total_count := totalCount
        limit := limit
        offset := offset
        has_more := decide (offset + limit < totalCount) } }

/-- src/tools/search.ts `SearchConversationsArgs`. -/
structure SearchConversationsArgs where
  query : List Char
  source : Option SourceFilter := none
  projectPath : Option String := none
  projectId : Option String := none
  startDate : Option String := none
  endDate : Option String := none
  timezone : Option String := none
  limit : Option Nat := none

/-- src/tools/search.ts `SearchConversationsResponse`. -/
structure SearchConversationsResponse where
  results : List SearchResult
  sources_searched : List SourceType
deriving DecidableEq, Repr

/-- The per-source options object built by the search tool. -/
def searchFanoutOpts (args : SearchConversationsArgs) : SearchOptions :=
  { query := args.query
    projectPath := args.projectPath
    projectId := args.projectId
    startDate := args.startDate
    endDate := args.endDate
    timezone := args.timezone
    limit := args.limit.getD 30 }

/-- src/tools/search.ts `searchConversations`: fan out, merge, sort by
timestamp descending, truncate to `limit`. -/
def searchConversationsTool (sources : List ConversationSource)
    (args : SearchConversationsArgs) : SearchConversationsResponse :=
  let limit := args.limit.getD 30
  let active := activeFor sources (args.source.getD .all)
  let allResults :=
    (active.map fun s => ((s.searchFn (searchFanoutOpts args)).toOption.getD [])).flatten
  { results := (List.insertionSort srGe allResults).take limit
    sources_searched := active.map (·.type) }

/-- src/tools/list-projects.ts `listProjects`: fan out, merge, sort by
lastActivity descending (unpaged). -/
def listProjectsTool (sources : List ConversationSource) (f : Option SourceFilter) :
    List Project :=
  let active := activeFor sources (f.getD .all)
  let allProjects :=
    (active.map fun s => ((s.listProjectsFn ()).toOption.getD [])).flatten
  List.insertionSort projGe allProjects

/-- src/tools/get-conversation.ts `GetConversationArgs`. -/
structure GetConversationArgs where
  sessionId : String
  source : Option SourceType := none
  messageTypes : Option (List String) := none
  limit : Option Nat := none
  offset : Option Nat := none

/-- The options object built by the getConversation tool. -/
def convFanoutOpts (args : GetConversationArgs) : GetConversationOptions :=
  { sessionId := args.sessionId
    messageTypes := args.messageTypes
    limit := args.limit.getD 100
    offset := args.offset.getD 0 }

/-- The hint guard of the fallback loop:
`source && src.type !== source` skips a source excluded by the hint. -/
def hintSkips (hint : Option SourceType) (t : SourceType) : Bool :=
  match hint with
  | some st => decide (t ≠ st)
  | none => false

/-- The preference-ordered fallback loop of src/tools/get-conversation.ts:
skip unavailable sources and sources excluded by the hint, swallow errors,
return the first hit. -/
def findConversation (opts : GetConversationOptions) (hint : Option SourceType) :
    List ConversationSource → Option Conversation
  | [] => none
  | s :: rest =>
    if !s.isAvailable then findConversation opts hint rest
    else if hintSkips hint s.type then findConversation opts hint rest
    else
      match s.getConversationFn opts with
      | .error _ => findConversation opts hint rest
      | .ok (some c) => some c
      | .ok none => findConversation opts hint rest

/-- src/tools/get-conversation.ts `getConversation`: with a hint, try the
hinted source first; then try all sources, code sources first (the comparator
`(a, b) => a.type === 'code' ? -1 : (b.type === 'code' ? 1 : 0)` under a stable
sort fronts the code sources and keeps relative order otherwise). -/
def getConversationTool (sources : List ConversationSource)
    (args : GetConversationArgs) : Option Conversation :=
  let opts := convFanoutOpts args
  let hinted : Option Conversation :=
    match args.source with
    | some st =>
      match sources.find? (fun s => decide (s.type = st) && s.isAvailable) with
      | some s => (s.getConversationFn opts).toOption.getD none
      | none => none
    | none => none
  match hinted with
  | some c => some c
  | none =>
    let ordered :=
      (sources.filter fun s => s.type = SourceType.code) ++
        (sources.filter fun s => s.type ≠ SourceType.code)
    findConversation opts args.source ordered


/-! ## Remote API client (src/auth/session.ts `CloudSession`) -/

/-- The outcome of one network attempt inside `fetchApi`: an HTTP response
with a status code and (already json-parsed) payload, a transport timeout
(TimeoutError / AbortError), or another transport error. -/
inductive AttemptOutcome (T : Type) where
  | http (code : Nat) (payload : T)
  | timeout
  | netError
deriving DecidableEq, Repr

/-- The observable effect of one `fetchApi` call: the returned value, the
availability flag after the call, the exponential-backoff sleeps (in ms, in
order) and the number of network attempts actually issued. -/
structure FetchOutcome (T : Type) where
  result : Option T
  available : Bool
  sleeps : List Nat
  attempts : Nat
deriving DecidableEq, Repr

/-- The retry loop of `CloudSession.fetchApi` (`for attempt = 0..2`), run from
a state where the client is available.  `resp attempt` is the outcome of the
attempt with that index.  The second numeric argument is the number of loop
iterations still permitted (the loop runs while `attempt < 3`, so it is
entered with attempt 0 and fuel 3, and fuel `attempt + rem = 3` throughout).
  * 401/403 demotes availability and returns null immediately;
  * 429 sleeps `2^(attempt+1) * 1000` ms and retries;
  * any other non-ok status returns null immediately (`response.ok` is
    status 200..299);
  * a timeout returns null immediately;
  * another transport error sleeps the same backoff and retries while
    `attempt < 2`;
  * falling out of the loop returns null with the client still available. -/
def fetchApiGo (T : Type) (resp : Nat → AttemptOutcome T) :
    Nat → Nat → FetchOutcome T
  | _, 0 => { result := none, available := true, sleeps := [], attempts := 0 }
  | attempt, rem + 1 =>
    match resp attempt with
    | .http code payload =>
      if code = 401 ∨ code = 403 then
        { result := none, available := false, sleeps := [], attempts := 1 }
      else if code = 429 then
        let backoff := 2 ^ (attempt + 1) * 1000
        let rest := fetchApiGo T resp (attempt + 1) rem
        { result := rest.result, available := rest.available,
          sleeps := backoff :: rest.sleeps, attempts := rest.attempts + 1 }
      else if 200 ≤ code ∧ code ≤ 299 then
        { result := some payload, available := true, sleeps := [], attempts := 1 }
      else
        { result := none, available := true, sleeps := [], attempts := 1 }
    | .timeout =>
      { result := none, available := true, sleeps := [], attempts := 1 }
    | .netError =>
      if attempt < 2 then
        let backoff := 2 ^ (attempt + 1) * 1000
        let rest := fetchApiGo T resp (attempt + 1) rem
        { result := rest.result, available := rest.available,
          sleeps := backoff :: rest.sleeps, attempts := rest.attempts + 1 }
      else
        { result := none, available := true, sleeps := [], attempts := 1 }

/-- The mutable per-instance state of a `CloudSession`.  (`lastRequestTime`,
which only drives the 100 ms inter-request delay, is real-time state and is
not part of the model.) -/
structure CloudSessionState where
  sessionKey : String
  orgId : Option String
  available : Bool
deriving DecidableEq, Repr

/-- The `CloudSession` constructor: availability starts `true`; an explicit
org id may be preconfigured. -/
def mkCloudSession (sessionKey : String) (orgId : Option String) :
    CloudSessionState :=
  { sessionKey := sessionKey, orgId := orgId, available := true }

/-- `CloudSession.markUnavailable`. -/
def markUnavailable (s : CloudSessionState) : CloudSessionState :=
  { s with available := false }

/-- `CloudSession.fetchApi`: if the instance has been demoted the call answers
null at once, with no network attempt and no sleep; otherwise the retry loop
runs and its final availability is written back to the instance. -/
def fetchApi (T : Type) (s : CloudSessionState) (resp : Nat → AttemptOutcome T) :
    Option T × CloudSessionState × FetchOutcome T :=
  if !s.available then
    (none, s, { result := none, available := s.available, sleeps := [], attempts := 0 })
  else
    let out := fetchApiGo T resp 0 3
    (out.result, { s with available := out.available }, out)

/-- One organization record, as far as `getOrgId` looks at it. -/
structure CloudOrganization where
  uuid : String
deriving DecidableEq, Repr

/-- `CloudSession.getOrgId`: return the cached id, otherwise fetch the
organizations listing and cache the first id; an empty or failed listing
demotes availability. -/
def getOrgId (s : CloudSessionState)
    (resp : Nat → AttemptOutcome (List CloudOrganization)) :
    Option String × CloudSessionState :=
  match s.orgId with
  | some o => (some o, s)
  | none =>
    let (res, s1, _) := fetchApi (List CloudOrganization) s resp
    match res with
    | some orgs =>
      match orgs.head? with
      | some firstOrg => (some firstOrg.uuid, { s1 with orgId := some firstOrg.uuid })
      | none => (none, markUnavailable s1)
    | none => (none, markUnavailable s1)

/-- A whole sequence of `fetchApi` calls on one instance, threading the state:
returns the final state and each call result paired with its attempt count. -/
def runFetchCalls (T : Type) (s : CloudSessionState) :
    List (Nat → AttemptOutcome T) → CloudSessionState × List (Option T × Nat)
  | [] => (s, [])
  | r :: rs =>
    let (res, s1, out) := fetchApi T s r
    let (sEnd, outs) := runFetchCalls T s1 rs
    (sEnd, (res, out.attempts) :: outs)


/-! ## Civil calendar arithmetic

Used to model `Date.prototype.toISOString`, which the engines call before
comparing timestamps as strings. -/

/-- Days since the epoch (1970-01-01) of a civil date, for in-range month and
day fields (the standard era-based civil-calendar computation). -/
def daysFromCivil (y m d : Int) : Int :=
  let y2 := if m ≤ 2 then y - 1 else y
  let era := y2.ediv 400
  let yoe := y2 - era * 400
  let mp := (m + 9).emod 12
  let doy := (153 * mp + 2).ediv 5 + d - 1
  let doe := yoe * 365 + yoe.ediv 4 - yoe.ediv 100 + doy
  era * 146097 + doe - 719468

/-- Civil date (year, month, day) of a day count since the epoch. -/
def civilFromDays (z0 : Int) : Int × Int × Int :=
  let z := z0 + 719468
  let era := z.ediv 146097
  let doe := z.emod 146097
  let yoe := (doe - doe.ediv 1460 + doe.ediv 36524 - doe.ediv 146096).ediv 365
  let y := yoe + era * 400
  let doy := doe - (365 * yoe + yoe.ediv 4 - yoe.ediv 100)
  let mp := (5 * doy + 2).ediv 153
  let d := doy - (153 * mp + 2).ediv 5 + 1
  let m := mp + (if mp < 10 then 3 else -9)
  (if m ≤ 2 then y + 1 else y, m, d)

/-- Zero-pad a nonnegative value to a given width. -/
def padNum (width : Nat) (n : Int) : String :=
  let digits := toString n.toNat
  String.mk (List.replicate (width - digits.length) '0') ++ digits

/-- `Date.prototype.toISOString` for epoch milliseconds in the four-digit-year
range: `YYYY-MM-DDTHH:mm:ss.sssZ`. -/
def msToIso (t : Int) : String :=
  let days := t.ediv 86400000
  let ms := t.emod 86400000
  let c := civilFromDays days
  padNum 4 c.1 ++ "-" ++ padNum 2 c.2.1 ++ "-" ++ padNum 2 c.2.2 ++ "T" ++
    padNum 2 (ms.ediv 3600000) ++ ":" ++ padNum 2 ((ms.ediv 60000).emod 60) ++ ":" ++
    padNum 2 ((ms.ediv 1000).emod 60) ++ "." ++ padNum 3 (ms.emod 1000) ++ "Z"

/-! ## Date normalizer (src/utils/date.ts `normalizeDate`) -/

/-- The JS environment oracles behind `normalizeDate`: the system timezone
(`Intl.DateTimeFormat().resolvedOptions().timeZone`), the system-zone
interpretation of local date fields
(`new Date(y, monthIndex, day, h, mi, s, ms).getTime()`), the system-zone
offset in minutes (`Date.prototype.getTimezoneOffset`), and the round-trip
difference
`new Date(t.toLocaleString('en-CA', tz)) - new Date(t.toLocaleString('en-CA', 'UTC'))`
in milliseconds, which under ideal Intl semantics is the UTC offset of zone
`tz` at instant `t`; `none` models the round trip producing NaN (an
unparsable locale string), which makes the final `toISOString` throw and the
function take its catch-and-fall-back path. -/
structure JsEnv where
  systemZone : String
  sysLocalToEpoch : Int → Int → Int → Int → Int → Int → Int → Int
  sysTzOffsetMin : Int → Int
  localeShift : Int → String → Option Int

/-- Split a character list at every hyphen: the behavior of
`String.prototype.split` with separator hyphen (second argument is the
accumulator for the current piece, reversed). -/
def splitHyphens : List Char → List Char → List (List Char)
  | [], cur => [cur.reverse]
  | c :: rest, cur =>
    if c = '-' then cur.reverse :: splitHyphens rest []
    else splitHyphens rest (c :: cur)

/-- Numeric value of a digit string. -/
def digitsVal (l : List Char) : Nat :=
  l.foldl (fun acc c => acc * 10 + (c.toNat - '0'.toNat)) 0

/-- `Number(x)` for the pieces of a hyphen-split date string: the empty
string is 0, a digit string is its value, anything else NaN (`none`). -/
def jsNumber (l : List Char) : Option Int :=
  if l = [] then some 0
  else if l.all (·.isDigit) then some (Int.ofNat (digitsVal l)) else none

/-- The non-UTC arm of `normalizeDate`: epoch milliseconds of the requested
boundary of the civil day in zone `tz`
(`localTime.getTime() + offsetMs - tzOffsetMs`), or `none` when the zone
round trip produced NaN. -/
def zoneBoundaryMs (env : JsEnv) (year month day : Int) (isEndDate : Bool)
    (tz : String) : Option Int :=
  let hour : Int := if isEndDate then 23 else 0
  let minute : Int := if isEndDate then 59 else 0
  let second : Int := if isEndDate then 59 else 0
  let millisecond : Int := if isEndDate then 999 else 0
  let refEpoch := env.sysLocalToEpoch year (month - 1) day 12 0 0 0
  let offsetMs := env.sysTzOffsetMin refEpoch * 60000
  let localEpoch := env.sysLocalToEpoch year (month - 1) day hour minute second millisecond
  (env.localeShift localEpoch tz).map fun tzOffsetMs => localEpoch + offsetMs - tzOffsetMs

/-- The zone resolution of `normalizeDate`:
`timezone || Intl.DateTimeFormat().resolvedOptions().timeZone` (an absent or
empty caller zone falls back to the system zone). -/
def resolveTz (env : JsEnv) (timezone : Option String) : String :=
  match timezone with
  | some t => if t = "" then env.systemZone else t
  | none => env.systemZone

/-- src/utils/date.ts `normalizeDate`. -/
def normalizeDateM (env : JsEnv) (dateString : String) (isEndDate : Bool)
    (timezone : Option String) : String :=
  if dateString.data.contains 'T' then dateString
  else
    let tz := resolveTz env timezone
    let fallback :=
      dateString ++ (if isEndDate then "T23:59:59.999Z" else "T00:00:00.000Z")
    if tz = "UTC" then
      dateString ++ (if isEndDate then "T23:59:59.999Z" else "T00:00:00.000Z")
    else
      let nums := (splitHyphens dateString.data []).map jsNumber
      match nums.getD 0 (some 0), nums.getD 1 (some 1), nums.getD 2 (some 1) with
      | some year, some month, some day =>
        match zoneBoundaryMs env year month day isEndDate tz with
        | some t => msToIso t
        | none => fallback
      | _, _, _ => fallback

/-- Epoch milliseconds of UTC civil fields: the system-zone oracle of an
environment whose system timezone is UTC (month is a JS zero-based index). -/
def epochOfUtcFields (y monthIndex d h mi sec ms : Int) : Int :=
  daysFromCivil y (monthIndex + 1) d * 86400000 +
    h * 3600000 + mi * 60000 + sec * 1000 + ms

/-- A concrete environment whose system timezone is UTC and whose zone oracle
carries the real IANA offsets of Pacific/Apia around its 2011-12-30
calendar-skip transition (UTC-10 before 2011-12-30T10:00:00Z, UTC+14 after:
the offset jumps by exactly 24 hours because the zone skipped that calendar
day), under ideal Intl round-trip semantics. -/
def apiaEnv : JsEnv :=
  { systemZone := "UTC"
    sysLocalToEpoch := epochOfUtcFields
    sysTzOffsetMin := fun _ => 0
    localeShift := fun t tz =>
      if tz = "Pacific/Apia" then
        some (if t < 1325239200000 then -36000000 else 50400000)
      else none }

/-! ## Local log source engine (src/sources/claude-code.ts) -/

/-- One item of a structured content array: a bare string, or a typed block
with an optional `text` field; `serialized` is its `JSON.stringify` form,
used when the block is not a non-empty text block. -/
inductive ContentItem where
  | str (s : List Char)
  | block (type : String) (text : Option (List Char)) (serialized : List Char)
deriving DecidableEq, Repr

/-- The `message.content` field: a plain string or an array of items. -/
inductive JsContent where
  | str (s : List Char)
  | arr (items : List ContentItem)
deriving DecidableEq, Repr

/-- The `message` field of a record. -/
structure MsgField where
  role : String
  content : Option JsContent := none
deriving DecidableEq, Repr

/-- A parsed JSONL record (src/types.ts `ClaudeCodeMessage`), restricted to
the fields the engine reads.  `timestamp` holds the record instant; the raw
JSON carries it as a canonical ISO string, which is `msToIso timestamp`
wherever the code compares it as a string. -/
structure ClaudeCodeMessage where
  sessionId : String
  type : String
  message : Option MsgField := none
  uuid : String
  timestamp : Int
deriving DecidableEq, Repr

/-- The text contributed by one content item inside `extractContent`:
`item.type === 'text' && item.text ? item.text : JSON.stringify(item)`
(an empty text string is falsy and falls through to the stringify arm). -/
def contentItemText (item : ContentItem) : List Char :=
  match item with
  | .str s => s
  | .block ty tx ser =>
    if ty = "text" then
      match tx with
      | some t => if t = [] then ser else t
      | none => ser
    else ser

/-- `Array.prototype.join(' ')`. -/
def joinSpace (ls : List (List Char)) : List Char :=
  (ls.intersperse [' ']).flatten

/-- src/sources/claude-code.ts `extractContent`: flatten a record content to
plain text. -/
def extractContent (entry : ClaudeCodeMessage) : List Char :=
  match entry.message with
  | none => []
  | some m =>
    match m.content with
    | none => []
    | some (.str s) => s
    | some (.arr items) => joinSpace (items.map contentItemText)

/-- Stat metadata of a session file, used by the search-phase pruning. -/
structure FileStat where
  mtime : Int
  birthtime : Int
deriving DecidableEq, Repr

/-- A `<sessionId>.jsonl` file: its name without the extension (the session
id), its lines (`none` is a blank or malformed line, silently skipped by the
parser) and its stat times. -/
structure SessionFile where
  name : String
  lines : List (Option ClaudeCodeMessage)
  stat : FileStat := { mtime := 0, birthtime := 0 }

/-- A project directory under `~/.claude/projects`. -/
structure ProjectDir where
  name : String
  files : List SessionFile

/-- src/sources/claude-code.ts `parseJsonlFile`: keep each successfully
parsed line, dropping records outside the optional (already normalized) date
bounds; the code compares the raw ISO timestamp string with the bound
strings. -/
def parseJsonlFile (lines : List (Option ClaudeCodeMessage))
    (startDate endDate : Option String) : List ClaudeCodeMessage :=
  lines.filterMap fun ln =>
    match ln with
    | none => none
    | some msg =>
      if (match startDate with
          | some sd => decide (msToIso msg.timestamp < sd)
          | none => false) then none
      else if (match endDate with
          | some ed => decide (ed < msToIso msg.timestamp)
          | none => false) then none
      else some msg

/-- The second replace of `decodeProjectPath`: strip one leading slash. -/
def stripLeadSlash : List Char → List Char
  | [] => []
  | c :: rest => if c = '/' then rest else c :: rest

/-- src/sources/claude-code.ts `decodeProjectPath`: a global regex replace
turns every hyphen into a slash, then a second replace strips one leading
slash. -/
def decodeProjectPath (projectDir : String) : String :=
  String.mk (stripLeadSlash (projectDir.data.map fun c => if c = '-' then '/' else c))

/-- The session object listSessions builds for one (nonempty) session file. -/
def sessionOfFile (decodedPath : String) (sessionId : String)
    (entries : List ClaudeCodeMessage) : Session :=
  let ts := entries.map (·.timestamp)
  { id := sessionId
    source := .code
    projectId := some ("code_" ++ decodedPath)
    projectName := some decodedPath
    createdAt := ts.min?.getD 0
    updatedAt := ts.max?.getD 0
    messageCount := entries.length }

/-- The sessions one project directory contributes to
`ClaudeCodeSource.listSessions`: skipped wholesale by the exact-match
project-path filter, otherwise one session per nonempty file whose
`[min, max]` timestamp span intersects the (already normalized) date range. -/
def dirSessions (projectPath : Option String) (nStart nEnd : Option String)
    (d : ProjectDir) : List Session :=
  let decodedPath := decodeProjectPath d.name
  if (match projectPath with
      | some p => decide (decodedPath ≠ p)
      | none => false) then []
  else
    d.files.filterMap fun f =>
      let entries := parseJsonlFile f.lines none none
      if entries.isEmpty then none
      else
        let ts := entries.map (·.timestamp)
        let sessionEnd := ts.max?.getD 0
        let sessionStart := ts.min?.getD 0
        if (match nStart with
            | some sd => decide (msToIso sessionEnd < sd)
            | none => false) then none
        else if (match nEnd with
            | some ed => decide (ed < msToIso sessionStart)
            | none => false) then none
        else some (sessionOfFile decodedPath f.name entries)

/-- `ClaudeCodeSource.listSessions`: normalize the date bounds, walk every
project directory, sort newest first, and slice `[offset, offset+limit)`. -/
def listSessionsLocal (env : JsEnv) (dirs : List ProjectDir)
    (opts : ListSessionsOptions) : List Session :=
  let nStart := opts.startDate.map fun sd => normalizeDateM env sd false opts.timezone
  let nEnd := opts.endDate.map fun ed => normalizeDateM env ed true opts.timezone
  let sessions := (dirs.map (dirSessions opts.projectPath nStart nEnd)).flatten
  ((List.insertionSort sessGe sessions).drop opts.offset).take opts.limit

/-- The role a record type is mapped to: a terminal `result` record is
reinterpreted as role `system`. -/
def roleOf (ty : String) : String := if ty = "result" then "system" else ty

/-- The allowed message-type set:
`messageTypes && messageTypes.length > 0 ? messageTypes : ['user', 'assistant']`. -/
def allowedTypesOf (messageTypes : Option (List String)) : List String :=
  match messageTypes with
  | some ts => if 0 < ts.length then ts else ["user", "assistant"]
  | none => ["user", "assistant"]

/-- `ClaudeCodeSource.getConversation`: find the first project directory
holding a file named for the session id, parse it, keep records whose mapped
role (or raw type) is allowed, sort ascending by timestamp, and page;
`null` when no directory has such a file. -/
def getConversationLocal (dirs : List ProjectDir)
    (opts : GetConversationOptions) : Option Conversation :=
  let allowed := allowedTypesOf opts.messageTypes
  match dirs.find? (fun d => d.files.any (fun f => f.name = opts.sessionId)) with
  | none => none
  | some d =>
    let lines := ((d.files.find? (fun f => f.name = opts.sessionId)).map (·.lines)).getD []
    let entries := parseJsonlFile lines none none
    let decodedPath := decodeProjectPath d.name
    let messages :=
      (entries.filter fun e =>
        allowed.contains (roleOf e.type) || allowed.contains e.type).map fun e =>
        ({ id := e.uuid, role := roleOf e.type, content := extractContent e,
           timestamp := e.timestamp } : Message)
    let sorted := List.insertionSort msgLe messages
    let paginatedMessages := (sorted.drop opts.offset).take opts.limit
    let ts := entries.map (·.timestamp)
    some
      { id := opts.sessionId
        source := .code
        session :=
          { id := opts.sessionId
            source := .code
            projectId := some ("code_" ++ decodedPath)
            projectName := some decodedPath
            createdAt := ts.min?.getD 0
            updatedAt := ts.max?.getD 0
            messageCount := messages.length }
        messages := paginatedMessages }

/-- `String.prototype.toLowerCase`, per UTF-16 unit. -/
def lowerStr (s : List Char) : List Char := s.map Char.toLower

/-- `String.prototype.indexOf`: position of the first occurrence of `needle`,
or `none`. -/
def idxOf (needle : List Char) : List Char → Option Nat
  | [] => if needle.isPrefixOf [] then some 0 else none
  | c :: t =>
    if needle.isPrefixOf (c :: t) then some 0
    else (idxOf needle t).map (· + 1)

/-- The ellipsis marker appended to a truncated snippet side. -/
def ellipsis : List Char := ['.', '.', '.']

/-- The snippet built around a match at `idx`:
`snippetStart = max(0, idx - 50)` (truncated subtraction),
`snippetEnd = min(content.length, idx + query.length + 50)`, with the
`[snippetStart, snippetEnd)` slice wrapped in ellipsis markers exactly on the
truncated sides. -/
def mkSnippet (content query : List Char) (idx : Nat) : List Char :=
  let snippetStart := idx - 50
  let snippetEnd := min content.length (idx + query.length + 50)
  (if 0 < snippetStart then ellipsis else []) ++
    ((content.drop snippetStart).take (snippetEnd - snippetStart)) ++
    (if snippetEnd < content.length then ellipsis else [])

/-- The per-file inner loop of `ClaudeCodeSource.search`: one SearchResult
for each record whose flattened content contains the query
case-insensitively. -/
def searchFileResults (query : List Char) (entries : List ClaudeCodeMessage) :
    List SearchResult :=
  entries.filterMap fun entry =>
    let content := extractContent entry
    match idxOf (lowerStr query) (lowerStr content) with
    | none => none
    | some idx =>
      some { source := .code, sessionId := entry.sessionId, messageId := entry.uuid,
             snippet := mkSnippet content query idx, timestamp := entry.timestamp }

/-- src/sources/claude-code.ts `shouldSkipFile`: prune a file whose stat-time
range cannot intersect the requested date range. -/
def shouldSkipFile (st : FileStat) (startDate endDate : Option String) : Bool :=
  if startDate.isNone && endDate.isNone then false
  else
    let fileModTime := msToIso st.mtime
    let fileCreateTime := msToIso st.birthtime
    let oldestPossibleTime :=
      if fileCreateTime < fileModTime then fileCreateTime else fileModTime
    let newestPossibleTime := fileModTime
    if (match endDate with
        | some ed => decide (ed < oldestPossibleTime)
        | none => false) then true
    else if (match startDate with
        | some sd => decide (newestPossibleTime < sd)
        | none => false) then true
    else false

/-- Phase 1 of `ClaudeCodeSource.search`: every `.jsonl` file under the
optional exact-match project-path filter. -/
def candidateFiles (dirs : List ProjectDir) (projectPath : Option String) :
    List SessionFile :=
  (dirs.filterMap fun d =>
    if (match projectPath with
        | some p => decide (decodeProjectPath d.name ≠ p)
        | none => false) then none
    else some d.files).flatten

/-- Phase 2 of `ClaudeCodeSource.search`: process files in batches of 10,
stopping before a new batch once `limit` results have accumulated (a batch
in flight runs to completion).  The extra fuel argument is initialized with
the file count and only bounds the recursion; one unit is spent per batch. -/
def searchLoop (query : List Char) (nStart nEnd : Option String) (limit : Nat) :
    Nat → List SessionFile → List SearchResult → List SearchResult
  | _, [], acc => acc
  | 0, _ :: _, acc => acc
  | fuel + 1, f :: rest, acc =>
    if limit ≤ acc.length then acc
    else
      let batch := (f :: rest).take 10
      let batchResults := batch.map fun file =>
        if shouldSkipFile file.stat nStart nEnd then []
        else searchFileResults query (parseJsonlFile file.lines nStart nEnd)
      searchLoop query nStart nEnd limit fuel (rest.drop 9) (acc ++ batchResults.flatten)

/-- `ClaudeCodeSource.search`: normalize the date bounds, enumerate candidate
files, run the batched scan, then sort newest first and truncate to
`limit`. -/
def searchLocal (env : JsEnv) (dirs : List ProjectDir) (opts : SearchOptions) :
    List SearchResult :=
  let nStart := opts.startDate.map fun sd => normalizeDateM env sd false opts.timezone
  let nEnd := opts.endDate.map fun ed => normalizeDateM env ed true opts.timezone
  let files := candidateFiles dirs opts.projectPath
  let results := searchLoop opts.query nStart nEnd opts.limit files.length files []
  (List.insertionSort srGe results).take opts.limit

/-! ## Remote source engine (src/sources/claude-api.ts) -/

/-- One content block of a cloud message. -/
structure CloudBlock where
  type : String
  text : Option (List Char) := none
deriving DecidableEq, Repr

/-- One message of a cloud conversation detail. -/
structure CloudMessage where
  uuid : String
  sender : String
  text : List Char
  created_at : Int
  content : Option (List CloudBlock) := none
deriving DecidableEq, Repr

/-- A cloud conversation detail, restricted to the fields the engine reads.
`chat_messages` is optional because the code guards it with `?? []`. -/
structure CloudConversationDetail where
  uuid : String
  name : String
  created_at : Int
  updated_at : Int
  chat_messages : Option (List CloudMessage) := none
deriving DecidableEq, Repr

/-- src/sources/claude-api.ts `extractCloudContent`: prefer the plain `text`
field (when truthy), else join the non-empty text blocks with spaces. -/
def extractCloudContent (msg : CloudMessage) : List Char :=
  if msg.text ≠ [] then msg.text
  else
    match msg.content with
    | some blocks =>
      joinSpace
        ((blocks.filter fun b =>
          b.type = "text" && (match b.text with
            | some t => decide (t ≠ [])
            | none => false)).map fun b => b.text.getD [])
    | none => []

/-- `ClaudeApiSource.getConversation`, as a function of the discovered org id
and the fetched conversation detail (both `none` when the corresponding
remote call produced nothing): map senders to roles, filter by the allowed
role set, sort ascending by timestamp, page. -/
def claudeApiGetConversation (orgId : Option String)
    (detail : Option CloudConversationDetail) (opts : GetConversationOptions) :
    Option Conversation :=
  match orgId with
  | none => none
  | some _ =>
    match detail with
    | none => none
    | some det =>
      let allowed := allowedTypesOf opts.messageTypes
      let allMessages :=
        ((det.chat_messages.getD []).filter fun msg =>
          allowed.contains (if msg.sender = "human" then "user" else "assistant")).map
          fun msg =>
            ({ id := msg.uuid
               role := if msg.sender = "human" then "user" else "assistant"
               content := extractCloudContent msg
               timestamp := msg.created_at } : Message)
      let sorted := List.insertionSort msgLe allMessages
      let paginatedMessages := (sorted.drop opts.offset).take opts.limit
      some
        { id := opts.sessionId
          source := .cloud
          session :=
            { id := opts.sessionId
              source := .cloud
              projectId := some "cloud_conversations"
              projectName := some "Claude.ai Conversations"
              title := if det.name = "" then none else some det.name
              createdAt := det.created_at
              updatedAt := det.updated_at
              messageCount := allMessages.length }
          messages := paginatedMessages }

/-! ## Concrete fixtures used by witnesses and counterexamples -/

/-- Response schedule for C1: HTTP 429 on each of the first three attempts,
then HTTP 200 with payload 42. -/
def threeRateLimitsThenOk : Nat → AttemptOutcome Nat :=
  fun attempt => if attempt < 3 then .http 429 0 else .http 200 42

/-- A session used by the concrete fan-out witnesses. -/
def demoSession : Session :=
  { id := "s1", source := .code, createdAt := 0, updatedAt := 5, messageCount := 1 }

/-- A source whose every operation raises. -/
def errSource : ConversationSource :=
  { type := .cloud
    isAvailable := true
    listProjectsFn := fun _ => .error ()
    listSessionsFn := fun _ => .error ()
    getConversationFn := fun _ => .error ()
    searchFn := fun _ => .error () }

/-- A healthy source returning one session. -/
def okSource : ConversationSource :=
  { type := .code
    isAvailable := true
    listProjectsFn := fun _ => .ok []
    listSessionsFn := fun _ => .ok [demoSession]
    getConversationFn := fun _ => .ok none
    searchFn := fun _ => .ok [] }

/-- A user record fixture. -/
def demoRecord : ClaudeCodeMessage :=
  { sessionId := "sess1", type := "user"
    message := some { role := "user", content := some (.str "hello API world".data) }
    uuid := "u1", timestamp := 1000 }

/-- An assistant record fixture. -/
def demoRecord2 : ClaudeCodeMessage :=
  { sessionId := "sess1", type := "assistant"
    message := some { role := "assistant", content := some (.str "the API answer".data) }
    uuid := "u2", timestamp := 2000 }

/-- A terminal result record fixture. -/
def demoResultRecord : ClaudeCodeMessage :=
  { sessionId := "sess1", type := "result"
    message := some { role := "assistant", content := some (.str "done".data) }
    uuid := "u3", timestamp := 3000 }

/-- A session file fixture holding the three records plus one malformed
line. -/
def demoFile : SessionFile :=
  { name := "sess1"
    lines := [some demoRecord, none, some demoRecord2, some demoResultRecord] }

/-- A project directory fixture. -/
def demoDir : ProjectDir := { name := "-Users-test-project1", files := [demoFile] }

/-! # Theorems -/

/-! ## Lemmas about the remote client -/

/-- A demoted client answers immediately: no result, no attempt, no sleep,
state untouched. -/
lemma fetchApi_unavailable (T : Type) (s : CloudSessionState)
    (resp : Nat → AttemptOutcome T) (h : s.available = false) :
    fetchApi T s resp =
      (none, s, { result := none, available := false, sleeps := [], attempts := 0 }) := by
  simp [fetchApi, h]

/-- No `fetchApi` call can re-enable a demoted client. -/
lemma fetchApi_available_monotone (T : Type) (s : CloudSessionState)
    (resp : Nat → AttemptOutcome T)
    (h : (fetchApi T s resp).2.1.available = true) : s.available = true := by
  by_cases hs : s.available
  · exact hs
  · have hb : s.available = false := by simpa using hs
    rw [fetchApi_unavailable T s resp hb] at h
    simp at h
    exact absurd h (by simp [hb])

/-- No `getOrgId` call can re-enable a demoted client. -/
lemma getOrgId_available_monotone (s : CloudSessionState)
    (resp : Nat → AttemptOutcome (List CloudOrganization))
    (h : (getOrgId s resp).2.available = true) : s.available = true := by
  unfold getOrgId at h
  rcases ho : s.orgId with _ | o
  · rw [ho] at h
    rcases hf : fetchApi (List CloudOrganization) s resp with ⟨res, s1, out⟩
    rw [hf] at h
    dsimp only at h
    rcases res with _ | orgs
    · simp [markUnavailable] at h
    · rcases horgs : orgs.head? with _ | firstOrg
      · simp only [horgs, markUnavailable] at h
        simp at h
      · simp only [horgs] at h
        apply fetchApi_available_monotone (List CloudOrganization) s resp
        rw [hf]
        exact h
  · rw [ho] at h
    exact h

/-- After demotion, a whole sequence of calls does nothing: the state is
untouched and every call returns no result with zero network attempts. -/
lemma runFetchCalls_unavailable (T : Type) (s : CloudSessionState)
    (calls : List (Nat → AttemptOutcome T)) (h : s.available = false) :
    (runFetchCalls T s calls).1 = s ∧
      (runFetchCalls T s calls).2 = calls.map (fun _ => (none, 0)) := by
  induction calls with
  | nil => simp [runFetchCalls]
  | cons r rs ih =>
    simp only [runFetchCalls, fetchApi_unavailable T s r h, List.map_cons]
    exact ⟨ih.1, by rw [ih.2]⟩

/-- A 401 or 403 on the first attempt yields no result and demotes the flag. -/
lemma fetchApi_auth_failure_demotes (T : Type) (s : CloudSessionState)
    (resp : Nat → AttemptOutcome T) (code : Nat) (p : T)
    (hs : s.available = true) (h0 : resp 0 = .http code p)
    (hc : code = 401 ∨ code = 403) :
    (fetchApi T s resp).1 = none ∧ (fetchApi T s resp).2.1.available = false := by
  simp [fetchApi, hs, fetchApiGo, h0, hc]

/-! ## Claim C1 -/

/-- C1 counterexample: against a fresh client, three consecutive HTTP 429
responses followed by a success do NOT yield the successful payload.  The
three 429s consume the whole three-attempt budget (sleeping 2, 4 and 8
seconds), the success response is never requested, and the call returns no
result. -/
theorem c1_counterexample_three429_exhausts_budget :
    (fetchApi Nat (mkCloudSession "key" none) threeRateLimitsThenOk).1 = none ∧
    (fetchApi Nat (mkCloudSession "key" none) threeRateLimitsThenOk).2.2.sleeps =
      [2000, 4000, 8000] ∧
    (fetchApi Nat (mkCloudSession "key" none) threeRateLimitsThenOk).2.2.attempts = 3 := by
  decide

/-- C1 amended: a call that receives TWO consecutive HTTP 429 responses
followed by a success returns the successful parsed payload, and the sleeps
between the 429 attempts are strictly increasing with duration
`2^(attempt+1)` seconds (here 2 s then 4 s); three consecutive 429s instead
exhaust the three-attempt budget and return no result. -/
theorem c1_two429_then_success_payload_and_increasing_backoff
    (T : Type) (p0 p1 v : T) (resp : Nat → AttemptOutcome T)
    (key : String) (orgId : Option String)
    (h0 : resp 0 = .http 429 p0) (h1 : resp 1 = .http 429 p1)
    (h2 : resp 2 = .http 200 v) :
    (fetchApi T (mkCloudSession key orgId) resp).1 = some v ∧
    (fetchApi T (mkCloudSession key orgId) resp).2.2.sleeps =
      [2 ^ (0 + 1) * 1000, 2 ^ (1 + 1) * 1000] ∧
    List.Chain' (· < ·) (fetchApi T (mkCloudSession key orgId) resp).2.2.sleeps := by
  simp [fetchApi, mkCloudSession, fetchApiGo, h0, h1, h2]

/-- Witness for the amended C1 theorem at a concrete response schedule. -/
theorem c1_two429_then_success_witness :
    (fetchApi Nat (mkCloudSession "key" none)
      (fun attempt => if attempt < 2 then .http 429 0 else .http 200 42)).1 = some 42 :=
  (c1_two429_then_success_payload_and_increasing_backoff Nat 0 0 42
    (fun attempt => if attempt < 2 then .http 429 0 else .http 200 42)
    "key" none rfl rfl rfl).1

/-! ## Claim C4 -/

/-- C4: the availability flag starts `true` and moves only one way: no
`fetchApi` or `getOrgId` call can turn it back to `true`; a 401/403 response
demotes it and yields no result; and once it is `false`, every subsequent
`fetchApi` call on the instance returns no result immediately, with zero
network attempts, leaving the state untouched — permanently, over any
sequence of later calls. -/
theorem c4_availability_one_way_and_permanent :
    (∀ key orgId, (mkCloudSession key orgId).available = true) ∧
    (∀ (T : Type) (s : CloudSessionState) (resp : Nat → AttemptOutcome T),
      s.available = false →
      fetchApi T s resp =
        (none, s, { result := none, available := false, sleeps := [], attempts := 0 })) ∧
    (∀ (T : Type) (s : CloudSessionState) (resp : Nat → AttemptOutcome T),
      (fetchApi T s resp).2.1.available = true → s.available = true) ∧
    (∀ (s : CloudSessionState) (resp : Nat → AttemptOutcome (List CloudOrganization)),
      (getOrgId s resp).2.available = true → s.available = true) ∧
    (∀ (T : Type) (s : CloudSessionState) (resp : Nat → AttemptOutcome T)
      (code : Nat) (p : T),
      s.available = true → resp 0 = .http code p → code = 401 ∨ code = 403 →
      (fetchApi T s resp).1 = none ∧ (fetchApi T s resp).2.1.available = false) ∧
    (∀ (T : Type) (s : CloudSessionState) (calls : List (Nat → AttemptOutcome T)),
      s.available = false →
      (runFetchCalls T s calls).1 = s ∧
      (runFetchCalls T s calls).2 = calls.map (fun _ => (none, 0))) := by
  refine ⟨fun key orgId => rfl, fetchApi_unavailable, fetchApi_available_monotone,
    getOrgId_available_monotone, fetchApi_auth_failure_demotes,
    runFetchCalls_unavailable⟩

/-- Witness for C4 at a concrete demoted instance and call sequence. -/
theorem c4_witness :
    (runFetchCalls Nat (markUnavailable (mkCloudSession "key" none))
      [fun _ => .http 200 7, fun _ => .http 200 8]).2 = [(none, 0), (none, 0)] := by
  have h := (c4_availability_one_way_and_permanent.2.2.2.2.2) Nat
    (markUnavailable (mkCloudSession "key" none))
    [fun _ => .http 200 7, fun _ => .http 200 8] rfl
  exact h.2


/-! ## Lemmas about the fan-out tools -/

/-- Dropping one middle source whose (caught) contribution is empty does not
change a fan-out merge. -/
lemma activeFor_middle_empty {β : Type} (f : SourceFilter)
    (g : ConversationSource → List β) (pre post : List ConversationSource)
    (s : ConversationSource) (hg : g s = []) :
    ((activeFor (pre ++ s :: post) f).map g).flatten =
      ((activeFor (pre ++ post) f).map g).flatten := by
  unfold activeFor
  by_cases hp : (s.isAvailable && matchesFilter f s.type) = true
  · simp [List.filter_append, List.filter_cons, hp, hg]
  · simp [List.filter_append, List.filter_cons, hp]

/-- Dropping an erroring middle source does not change `mergedSessions`. -/
lemma mergedSessions_middle_error (pre post : List ConversationSource)
    (s : ConversationSource) (args : ListSessionsArgs)
    (h : s.listSessionsFn (sessionsFanoutOpts args) = .error ()) :
    mergedSessions (pre ++ s :: post) args = mergedSessions (pre ++ post) args := by
  unfold mergedSessions
  exact activeFor_middle_empty _ _ pre post s (by simp [h, Except.toOption])

/-! ## Claim C2 -/

/-- C2: a source that raises during fan-out contributes an empty result set:
for each fan-out operation (session listing, search, project listing) the
merged result equals the one produced over the same source list with the
erroring source omitted, and no exception reaches the caller (every tool is a
total function).  For search, the `results` list is unchanged, while
`sources_searched` still records the erroring source as queried, as specified
separately. -/
theorem c2_fanout_error_isolation (pre post : List ConversationSource)
    (s : ConversationSource) :
    (∀ args : ListSessionsArgs,
      s.listSessionsFn (sessionsFanoutOpts args) = .error () →
      listSessionsTool (pre ++ s :: post) args = listSessionsTool (pre ++ post) args) ∧
    (∀ args : SearchConversationsArgs,
      s.searchFn (searchFanoutOpts args) = .error () →
      (searchConversationsTool (pre ++ s :: post) args).results =
        (searchConversationsTool (pre ++ post) args).results) ∧
    (∀ f : Option SourceFilter,
      s.listProjectsFn () = .error () →
      listProjectsTool (pre ++ s :: post) f = listProjectsTool (pre ++ post) f) := by
  refine ⟨fun args h => ?_, fun args h => ?_, fun f h => ?_⟩
  · unfold listSessionsTool
    rw [mergedSessions_middle_error pre post s args h]
  · unfold searchConversationsTool
    have hres := activeFor_middle_empty (args.source.getD .all)
      (fun s => ((s.searchFn (searchFanoutOpts args)).toOption.getD []))
      pre post s (by simp [h, Except.toOption])
    simp only [hres]
  · unfold listProjectsTool
    have hres := activeFor_middle_empty (f.getD .all)
      (fun s => ((s.listProjectsFn ()).toOption.getD []))
      pre post s (by simp [h, Except.toOption])
    simp only [hres]

/-- Witness for C2 at a concrete pair of sources. -/
theorem c2_fanout_error_isolation_witness :
    listSessionsTool [okSource, errSource] {} = listSessionsTool [okSource] {} :=
  (c2_fanout_error_isolation [okSource] [] errSource).1 {} rfl

/-! ## Claim C3 -/

/-- C3: the listSessions orchestration asks every selected source for
`offset + limit` items at offset 0; the merged list is globally sorted
non-increasing by `updatedAt` and sliced to `[offset, offset+limit)`;
`total_count` is the size of the full merged set (not the returned page) and
`has_more` holds exactly when `offset + limit < total_count`. -/
theorem c3_listSessions_pagination (sources : List ConversationSource)
    (args : ListSessionsArgs) :
    (sessionsFanoutOpts args).limit = (args.offset.getD 0) + (args.limit.getD 50) ∧
    (sessionsFanoutOpts args).offset = 0 ∧
    (listSessionsTool sources args).sessions =
      ((List.insertionSort sessGe (mergedSessions sources args)).drop
        (args.offset.getD 0)).take (args.limit.getD 50) ∧
    List.Sorted sessGe (listSessionsTool sources args).sessions ∧
    (listSessionsTool sources args).pagination.total_count =
      (mergedSessions sources args).length ∧
    ((listSessionsTool sources args).pagination.has_more = true ↔
      (args.offset.getD 0) + (args.limit.getD 50) <
        (mergedSessions sources args).length) := by
  have hlen : (List.insertionSort sessGe (mergedSessions sources args)).length =
      (mergedSessions sources args).length :=
    (List.perm_insertionSort sessGe (mergedSessions sources args)).length_eq
  refine ⟨by simp [sessionsFanoutOpts, Nat.add_comm], rfl, rfl, ?_, ?_, ?_⟩
  · have hsorted : List.Sorted sessGe
        (List.insertionSort sessGe (mergedSessions sources args)) :=
      List.sorted_insertionSort sessGe (mergedSessions sources args)
    exact List.Pairwise.sublist
      ((List.take_sublist _ _).trans (List.drop_sublist _ _)) hsorted
  · exact hlen
  · simp [listSessionsTool, hlen]


/-! ## Lemmas about the local engine -/

/-- Stripping a leading slash only removes characters. -/
lemma mem_stripLeadSlash {c : Char} {l : List Char} (h : c ∈ stripLeadSlash l) :
    c ∈ l := by
  cases l with
  | nil => simp [stripLeadSlash] at h
  | cons c0 rest =>
    simp only [stripLeadSlash] at h
    by_cases hc0 : c0 = '/'
    · rw [if_pos hc0] at h
      exact List.mem_cons_of_mem _ h
    · rw [if_neg hc0] at h
      exact h

/-- A decoded project path never contains a hyphen. -/
lemma decodeProjectPath_no_hyphen (s : String) : '-' ∉ (decodeProjectPath s).data := by
  intro hmem
  have hmem2 : '-' ∈ s.data.map (fun x => if x = '-' then '/' else x) :=
    mem_stripLeadSlash hmem
  rcases List.mem_map.mp hmem2 with ⟨a, _, ha⟩
  by_cases h : a = '-'
  · rw [if_pos h] at ha
    exact absurd ha (by decide)
  · rw [if_neg h] at ha
    exact h ha

/-- A directory is skipped wholesale when the exact-match filter path
contains a hyphen. -/
lemma dirSessions_eq_nil_of_hyphen (p : String) (nStart nEnd : Option String)
    (d : ProjectDir) (hh : '-' ∈ p.data) :
    dirSessions (some p) nStart nEnd d = [] := by
  unfold dirSessions
  have hne : decodeProjectPath d.name ≠ p := by
    intro heq
    exact decodeProjectPath_no_hyphen d.name (heq ▸ hh)
  simp [hne]

/-! ## Claim C10 -/

/-- C10: every decoded project directory name is hyphen-free (each hyphen is
replaced by a slash and one leading slash is stripped), so an exact-match
projectPath filter whose value contains a hyphen can never equal a decoded
path, and a listSessions call with such a filter returns no session from any
directory tree. -/
theorem c10_decoded_path_has_no_hyphen :
    (∀ s : String, '-' ∉ (decodeProjectPath s).data) ∧
    (∀ s p : String, '-' ∈ p.data → decodeProjectPath s ≠ p) ∧
    (∀ (env : JsEnv) (dirs : List ProjectDir) (opts : ListSessionsOptions)
      (p : String), opts.projectPath = some p → '-' ∈ p.data →
      listSessionsLocal env dirs opts = []) := by
  refine ⟨decodeProjectPath_no_hyphen, ?_, ?_⟩
  · intro s p hp heq
    exact decodeProjectPath_no_hyphen s (heq ▸ hp)
  · intro env dirs opts p hp hh
    unfold listSessionsLocal
    rw [hp]
    have hflat : (dirs.map (dirSessions (some p)
        (opts.startDate.map fun sd => normalizeDateM env sd false opts.timezone)
        (opts.endDate.map fun ed => normalizeDateM env ed true opts.timezone))).flatten
        = [] := by
      rw [List.flatten_eq_nil_iff]
      intro l hl
      rcases List.mem_map.mp hl with ⟨d, _, rfl⟩
      exact dirSessions_eq_nil_of_hyphen p _ _ d hh
    simp only [hflat]
    simp [List.insertionSort]

/-- Witness for C10: the demo tree filtered by a hyphenated path yields
nothing, although the same tree does hold a session under the decoded path. -/
theorem c10_witness :
    listSessionsLocal apiaEnv [demoDir]
      { projectPath := some "-Users-test-project1" } = [] :=
  (c10_decoded_path_has_no_hyphen.2.2) apiaEnv [demoDir]
    { projectPath := some "-Users-test-project1" } "-Users-test-project1" rfl
    (by decide)


/-! ## Lemmas about conversation retrieval -/

/-- The fallback loop yields nothing when no source in the list can produce a
conversation. -/
lemma findConversation_eq_none (opts : GetConversationOptions)
    (hint : Option SourceType) (l : List ConversationSource)
    (h : ∀ s ∈ l, ∀ c, s.getConversationFn opts ≠ .ok (some c)) :
    findConversation opts hint l = none := by
  induction l with
  | nil => rfl
  | cons s rest ih =>
    have hrest : ∀ s2 ∈ rest, ∀ c, s2.getConversationFn opts ≠ .ok (some c) :=
      fun s2 hm c => h s2 (List.mem_cons_of_mem _ hm) c
    unfold findConversation
    by_cases ha : !s.isAvailable
    · rw [if_pos ha]
      exact ih hrest
    · rw [if_neg ha]
      by_cases hskip : hintSkips hint s.type = true
      · rw [if_pos hskip]
        exact ih hrest
      · rw [if_neg hskip]
        rcases hg : s.getConversationFn opts with e | oc
        · exact ih hrest
        · rcases oc with _ | c
          · exact ih hrest
          · exact absurd hg (h s (List.mem_cons_self s rest) c)

/-! ## Claim C8 -/

/-- C8: when no project directory holds a record file named for the session
id, the local engine returns null (not an error); and when every configured
source can produce no conversation for the request (as the local source then
does), the preference-ordered fallback of the orchestration tool also
returns null without raising. -/
theorem c8_missing_session_returns_not_found :
    (∀ (dirs : List ProjectDir) (opts : GetConversationOptions),
      (∀ d ∈ dirs, ∀ f ∈ d.files, f.name ≠ opts.sessionId) →
      getConversationLocal dirs opts = none) ∧
    (∀ (sources : List ConversationSource) (args : GetConversationArgs),
      (∀ s ∈ sources, ∀ c, s.getConversationFn (convFanoutOpts args) ≠ .ok (some c)) →
      getConversationTool sources args = none) := by
  constructor
  · intro dirs opts h
    unfold getConversationLocal
    have hfind : dirs.find? (fun d => d.files.any (fun f => f.name = opts.sessionId))
        = none := by
      rw [List.find?_eq_none]
      intro d hd hany
      rcases List.any_eq_true.mp hany with ⟨f, hf, heq⟩
      exact h d hd f hf (by simpa using heq)
    rw [hfind]
  · intro sources args h
    unfold getConversationTool
    have hhint : (match args.source with
        | some st =>
          match sources.find? (fun s => decide (s.type = st) && s.isAvailable) with
          | some s => (s.getConversationFn (convFanoutOpts args)).toOption.getD none
          | none => none
        | none => none) = none := by
      rcases args.source with _ | st
      · rfl
      · rcases hfind : sources.find? (fun s => decide (s.type = st) && s.isAvailable)
          with _ | s
        · simp only [hfind]
        · simp only [hfind]
          have hs := List.mem_of_find?_eq_some hfind
          rcases hg : s.getConversationFn (convFanoutOpts args) with e | oc
          · simp [Except.toOption, hg]
          · rcases oc with _ | c
            · simp [Except.toOption, hg]
            · exact absurd hg (h s hs c)
    simp only [hhint]
    apply findConversation_eq_none
    intro s hs c
    rcases List.mem_append.mp hs with hmem | hmem
    · exact h s (List.mem_of_mem_filter hmem) c
    · exact h s (List.mem_of_mem_filter hmem) c

/-- Witness for the local half of C8 at a concrete tree and session id. -/
theorem c8_local_witness :
    getConversationLocal [demoDir] { sessionId := "non-existent" } = none :=
  c8_missing_session_returns_not_found.1 [demoDir] { sessionId := "non-existent" }
    (by decide)


/-! ## Claim C7 -/

/-- C7: every conversation either engine returns carries its message page
sorted ascending by timestamp, whatever the on-disk or on-wire order of the
records was. -/
theorem c7_messages_sorted_ascending :
    (∀ (dirs : List ProjectDir) (opts : GetConversationOptions)
      (conv : Conversation), getConversationLocal dirs opts = some conv →
      List.Sorted msgLe conv.messages) ∧
    (∀ (orgId : Option String) (detail : Option CloudConversationDetail)
      (opts : GetConversationOptions) (conv : Conversation),
      claudeApiGetConversation orgId detail opts = some conv →
      List.Sorted msgLe conv.messages) := by
  have hslice : ∀ (l : List Message) (o lim : Nat),
      List.Sorted msgLe (((List.insertionSort msgLe l).drop o).take lim) := by
    intro l o lim
    exact List.Pairwise.sublist
      ((List.take_sublist _ _).trans (List.drop_sublist _ _))
      (List.sorted_insertionSort msgLe l)
  constructor
  · intro dirs opts conv h
    unfold getConversationLocal at h
    rcases hfind : dirs.find? (fun d => d.files.any (fun f => f.name = opts.sessionId))
      with _ | d
    · rw [hfind] at h
      simp at h
    · rw [hfind] at h
      simp only [Option.some.injEq] at h
      rw [← h]
      exact hslice _ _ _
  · intro orgId detail opts conv h
    unfold claudeApiGetConversation at h
    rcases orgId with _ | o
    · simp at h
    · rcases detail with _ | det
      · simp at h
      · simp only [Option.some.injEq] at h
        rw [← h]
        exact hslice _ _ _

/-- Witness for C7 on the demo tree (whose file stores an out-of-order
record pair once the result record is filtered away). -/
theorem c7_witness :
    List.Sorted msgLe
      (((getConversationLocal [demoDir] { sessionId := "sess1" }).map
        Conversation.messages).getD []) := by
  rcases hx : getConversationLocal [demoDir] { sessionId := "sess1" } with _ | conv
  · exact absurd hx (by decide)
  · simpa using c7_messages_sorted_ascending.1 [demoDir] { sessionId := "sess1" } conv hx


/-! ## Claim C9 -/

/-- With the default allowed set, the getConversation record filter keeps
exactly the records of raw type user or assistant. -/
lemma default_filter_pred (ty : String) :
    ((["user", "assistant"].contains (roleOf ty)) || ["user", "assistant"].contains ty)
      = (decide (ty = "user") || decide (ty = "assistant")) := by
  unfold roleOf
  by_cases h1 : ty = "result"
  · subst h1
    decide
  · rw [if_neg h1]
    by_cases h2 : ty = "user"
    · subst h2
      decide
    · by_cases h3 : ty = "assistant"
      · subst h3
        decide
      · simp [List.contains, h2, h3]

/-- C9: for one and the same session file, listSessions reports every
successfully parsed record in `messageCount`, while getConversation with the
default message-type set reports only the user/assistant records in
`session.messageCount`; a file holding a `system` or `result` record
therefore gets two different counts from the two operations. -/
theorem c9_listSessions_vs_getConversation_message_counts
    (env : JsEnv) (dirName sid : String) (st : FileStat)
    (lines : List (Option ClaudeCodeMessage))
    (hne : parseJsonlFile lines none none ≠ []) :
    ((listSessionsLocal env
        [{ name := dirName, files := [{ name := sid, lines := lines, stat := st }] }]
        {}).map Session.messageCount = [(parseJsonlFile lines none none).length]) ∧
    ((getConversationLocal
        [{ name := dirName, files := [{ name := sid, lines := lines, stat := st }] }]
        { sessionId := sid }).map (fun c => c.session.messageCount) =
      some ((parseJsonlFile lines none none).filter
        (fun e => decide (e.type = "user") || decide (e.type = "assistant"))).length) ∧
    ((∃ e ∈ parseJsonlFile lines none none, e.type = "system" ∨ e.type = "result") →
      (getConversationLocal
        [{ name := dirName, files := [{ name := sid, lines := lines, stat := st }] }]
        { sessionId := sid }).map (fun c => c.session.messageCount) ≠
      some (parseJsonlFile lines none none).length) := by
  have hcount2 : (getConversationLocal
      [{ name := dirName, files := [{ name := sid, lines := lines, stat := st }] }]
      { sessionId := sid }).map (fun c => c.session.messageCount) =
      some ((parseJsonlFile lines none none).filter
        (fun e => decide (e.type = "user") || decide (e.type = "assistant"))).length := by
    simp only [getConversationLocal, allowedTypesOf, List.find?, List.any_cons,
      List.any_nil, decide_True, Bool.or_false, decide_eq_true_eq]
    simp only [Option.map_some', Option.getD_some, List.length_map]
    congr 1
    congr 1
    apply List.filter_congr
    intro e _
    exact default_filter_pred e.type
  refine ⟨?_, hcount2, ?_⟩
  · unfold listSessionsLocal dirSessions
    simp only [Option.map_none]
    rcases hE : parseJsonlFile lines none none with _ | ⟨a, t⟩
    · exact absurd hE hne
    · simp [List.insertionSort, List.orderedInsert, sessionOfFile, hE]
  · intro hex
    rw [hcount2]
    intro heq
    have hlen : ((parseJsonlFile lines none none).filter
        (fun e => decide (e.type = "user") || decide (e.type = "assistant"))).length =
        (parseJsonlFile lines none none).length := by
      simpa using heq
    rcases hex with ⟨e, he, hty⟩
    have hlt : ((parseJsonlFile lines none none).filter
        (fun e => decide (e.type = "user") || decide (e.type = "assistant"))).length <
        (parseJsonlFile lines none none).length := by
      rw [List.length_filter_lt_length_iff_exists]
      refine ⟨e, he, ?_⟩
      rcases hty with h | h <;> simp [h]
    omega

/-- Witness for C9 at the demo file, whose result record makes the counts
differ (3 parsed records versus 2 user and assistant records). -/
theorem c9_witness :
    ((listSessionsLocal apiaEnv [demoDir] {}).map Session.messageCount = [3]) ∧
    ((getConversationLocal [demoDir] { sessionId := "sess1" }).map
      (fun c => c.session.messageCount) = some 2) := by
  have h := c9_listSessions_vs_getConversation_message_counts apiaEnv
    "-Users-test-project1" "sess1" { mtime := 0, birthtime := 0 }
    demoFile.lines (by decide)
  exact ⟨h.1, h.2.1⟩


/-! ## Lemmas about snippets -/

/-- What a found index means: the needle sits at that position (as a
prefix of the drop), and fits inside the haystack. -/
lemma idxOf_spec (needle : List Char) :
    ∀ (hay : List Char) (i : Nat), idxOf needle hay = some i →
      needle <+: hay.drop i ∧ i + needle.length ≤ hay.length := by
  intro hay
  induction hay with
  | nil =>
    intro i h
    unfold idxOf at h
    by_cases hp : needle.isPrefixOf ([] : List Char)
    · rw [if_pos hp] at h
      injection h with h0
      have hpre := List.isPrefixOf_iff_prefix.mp hp
      rw [← h0]
      exact ⟨hpre, by simpa using hpre.length_le⟩
    · rw [if_neg hp] at h
      cases h
  | cons c t ih =>
    intro i h
    unfold idxOf at h
    by_cases hp : needle.isPrefixOf (c :: t)
    · rw [if_pos hp] at h
      injection h with h0
      have hpre := List.isPrefixOf_iff_prefix.mp hp
      rw [← h0]
      exact ⟨hpre, by simpa using hpre.length_le⟩
    · rw [if_neg hp] at h
      rcases hrec : idxOf needle t with _ | j
      · rw [hrec] at h
        cases h
      · rw [hrec] at h
        simp only [Option.map_some'] at h
        rcases ih j hrec with ⟨hpre, hlen⟩
        injection h with h0
        rw [← h0]
        constructor
        · simpa using hpre
        · simp only [List.length_cons]
          omega

/-- Splitting a slice at an inner window. -/
lemma slice_split (l : List Char) (s i q e : Nat) (h1 : s ≤ i) (h2 : i + q ≤ e) :
    (l.drop s).take (e - s) =
      (l.drop s).take (i - s) ++
        ((l.drop i).take q ++ (l.drop (i + q)).take (e - (i + q))) := by
  have he1 : e - s = (i - s) + (e - i) := by omega
  rw [he1, List.take_add]
  have hd1 : List.drop (i - s) (List.drop s l) = List.drop i l := by
    rw [List.drop_drop]
    congr 1
    omega
  rw [hd1]
  have he2 : e - i = q + (e - (i + q)) := by omega
  rw [he2, List.take_add, List.drop_drop]

/-- The three claimed snippet facts, given a match that fits in the
content: the snippet is the 50-before/50-after window with ellipsis markers
exactly on the truncated sides, it contains the matched slice of the
content, and its length is bounded by the query length plus 100 plus the
markers. -/
lemma mkSnippet_spec (content query : List Char) (idx : Nat)
    (hle : idx + query.length ≤ content.length) :
    mkSnippet content query idx =
      (if 50 < idx then ellipsis else []) ++
        ((content.drop (idx - 50)).take
          (min content.length (idx + query.length + 50) - (idx - 50))) ++
        (if idx + query.length + 50 < content.length then ellipsis else []) ∧
    ((content.drop idx).take query.length) <:+: mkSnippet content query idx ∧
    (mkSnippet content query idx).length ≤
      query.length + 100 + 2 * ellipsis.length := by
  have hs : idx - 50 ≤ idx := by omega
  have he : idx + query.length ≤ min content.length (idx + query.length + 50) := by
    omega
  have hshape : mkSnippet content query idx =
      (if 50 < idx then ellipsis else []) ++
        ((content.drop (idx - 50)).take
          (min content.length (idx + query.length + 50) - (idx - 50))) ++
        (if idx + query.length + 50 < content.length then ellipsis else []) := by
    simp only [mkSnippet]
    have h1 : (0 < idx - 50) ↔ (50 < idx) := by omega
    have h2 : (min content.length (idx + query.length + 50) < content.length) ↔
        (idx + query.length + 50 < content.length) := by omega
    rw [if_congr h1 rfl rfl, if_congr h2 rfl rfl]
  refine ⟨hshape, ?_, ?_⟩
  · have hsplit := slice_split content (idx - 50) idx query.length
      (min content.length (idx + query.length + 50)) hs he
    rw [hshape, hsplit]
    refine ⟨(if 50 < idx then ellipsis else []) ++
      (content.drop (idx - 50)).take (idx - (idx - 50)),
      (content.drop (idx + query.length)).take
        (min content.length (idx + query.length + 50) - (idx + query.length)) ++
      (if idx + query.length + 50 < content.length then ellipsis else []), ?_⟩
    simp [List.append_assoc]
  · rw [hshape]
    have hcore : ((content.drop (idx - 50)).take
        (min content.length (idx + query.length + 50) - (idx - 50))).length ≤
        query.length + 100 := by
      rw [List.length_take]
      omega
    by_cases hpre : 50 < idx <;> by_cases hpost :
        idx + query.length + 50 < content.length <;>
      simp [hpre, hpost, List.length_append, ellipsis] <;> omega


/-- Every result the per-file loop emits comes from a record of the file and
carries the snippet built around the found match index. -/
lemma searchFileResults_snippet (query : List Char)
    (entries : List ClaudeCodeMessage) (r : SearchResult)
    (h : r ∈ searchFileResults query entries) :
    ∃ entry ∈ entries, ∃ idx : Nat,
      idxOf (lowerStr query) (lowerStr (extractContent entry)) = some idx ∧
      r.snippet = mkSnippet (extractContent entry) query idx := by
  unfold searchFileResults at h
  rcases List.mem_filterMap.mp h with ⟨entry, hmem, hf⟩
  rcases hidx : idxOf (lowerStr query) (lowerStr (extractContent entry)) with _ | idx
  · simp only [hidx] at hf
    cases hf
  · simp only [hidx, Option.some.injEq] at hf
    exact ⟨entry, hmem, idx, hidx, by rw [← hf]⟩

/-- Every result the batched loop accumulates is either already in the
accumulator or produced by the per-file loop on one of the files. -/
lemma searchLoop_mem (query : List Char) (nS nE : Option String) (limit : Nat)
    (r : SearchResult) :
    ∀ (fuel : Nat) (files : List SessionFile) (acc : List SearchResult),
      r ∈ searchLoop query nS nE limit fuel files acc →
      r ∈ acc ∨ ∃ f ∈ files, r ∈ searchFileResults query (parseJsonlFile f.lines nS nE) := by
  intro fuel
  induction fuel with
  | zero =>
    intro files acc h
    cases files with
    | nil => exact Or.inl h
    | cons f rest => exact Or.inl h
  | succ fuel ih =>
    intro files acc h
    cases files with
    | nil => exact Or.inl h
    | cons f rest =>
      unfold searchLoop at h
      by_cases hlim : limit ≤ acc.length
      · rw [if_pos hlim] at h
        exact Or.inl h
      · rw [if_neg hlim] at h
        rcases ih (rest.drop 9) _ h with hacc | ⟨f2, hf2, hr⟩
        · rcases List.mem_append.mp hacc with h1 | h2
          · exact Or.inl h1
          · rcases List.mem_flatten.mp h2 with ⟨l, hl, hrl⟩
            rcases List.mem_map.mp hl with ⟨file, hfile, rfl⟩
            by_cases hskip : shouldSkipFile file.stat nS nE
            · rw [if_pos hskip] at hrl
              cases hrl
            · rw [if_neg hskip] at hrl
              exact Or.inr ⟨file, List.mem_of_mem_take hfile, hrl⟩
        · exact Or.inr ⟨f2, List.mem_cons_of_mem f (List.drop_subset 9 rest hf2), hr⟩

/-! ## Claim C5 -/

/-- C5: every result a local search emits has a snippet that is exactly the
window from 50 characters before the match to 50 characters after its end,
with an ellipsis marker prepended exactly when the left side was truncated
and appended exactly when the right side was truncated; the snippet contains
the matched substring of the content, and its length is at most the query
length plus 100 plus the two ellipsis markers. -/
theorem c5_search_snippet_window (env : JsEnv) (dirs : List ProjectDir)
    (opts : SearchOptions) (r : SearchResult) (h : r ∈ searchLocal env dirs opts) :
    ∃ (content : List Char) (idx : Nat),
      idxOf (lowerStr opts.query) (lowerStr content) = some idx ∧
      r.snippet =
        (if 50 < idx then ellipsis else []) ++
          ((content.drop (idx - 50)).take
            (min content.length (idx + opts.query.length + 50) - (idx - 50))) ++
          (if idx + opts.query.length + 50 < content.length then ellipsis else []) ∧
      ((content.drop idx).take opts.query.length) <:+: r.snippet ∧
      r.snippet.length ≤ opts.query.length + 100 + 2 * ellipsis.length := by
  unfold searchLocal at h
  have h1 := List.mem_of_mem_take h
  have h2 := (List.perm_insertionSort srGe _).mem_iff.mp h1
  rcases searchLoop_mem opts.query
      (opts.startDate.map fun sd => normalizeDateM env sd false opts.timezone)
      (opts.endDate.map fun ed => normalizeDateM env ed true opts.timezone)
      opts.limit r _ _ _ h2 with hacc | ⟨f, _, hr⟩
  · cases hacc
  · rcases searchFileResults_snippet opts.query _ r hr
      with ⟨entry, _, idx, hidx, hsnip⟩
    have hfit : idx + opts.query.length ≤ (extractContent entry).length := by
      have := (idxOf_spec (lowerStr opts.query) (lowerStr (extractContent entry))
        idx hidx).2
      simpa [lowerStr] using this
    rcases mkSnippet_spec (extractContent entry) opts.query idx hfit
      with ⟨hshape, hinf, hlen⟩
    refine ⟨extractContent entry, idx, hidx, ?_, ?_, ?_⟩
    · rw [hsnip, hshape]
    · rw [hsnip]
      exact hinf
    · rw [hsnip]
      exact hlen

/-- Witness for C5: a concrete search over the demo tree; its first result is
the assistant record, whose 14-character content needs no truncation. -/
theorem c5_witness :
    ∃ (content : List Char) (idx : Nat),
      idxOf (lowerStr "API".data) (lowerStr content) = some idx ∧
      ({ source := .code, sessionId := "sess1", messageId := "u2",
         snippet := "the API answer".data,
         timestamp := 2000 } : SearchResult).snippet =
        (if 50 < idx then ellipsis else []) ++
          ((content.drop (idx - 50)).take
            (min content.length (idx + "API".data.length + 50) - (idx - 50))) ++
          (if idx + "API".data.length + 50 < content.length then ellipsis else []) ∧
      ((content.drop idx).take "API".data.length) <:+:
        ("the API answer".data : List Char) ∧
      ("the API answer".data : List Char).length ≤
        "API".data.length + 100 + 2 * ellipsis.length :=
  c5_search_snippet_window apiaEnv [demoDir] { query := "API".data }
    { source := .code, sessionId := "sess1", messageId := "u2",
      snippet := "the API answer".data, timestamp := 2000 }
    (by decide)


/-! ## Lemmas about the date normalizer -/

/-- Appending on the left preserves strict lexicographic order. -/
lemma list_lt_append_left (p : List Char) (a b : List Char) (h : List.lt a b) :
    List.lt (p ++ a) (p ++ b) := by
  induction p with
  | nil => exact h
  | cons c t ih =>
    exact List.lt.tail (lt_irrefl c) (lt_irrefl c) ih

/-- The start-of-day suffix sorts strictly before the end-of-day suffix under
any common prefix (lexicographically, which on these canonical strings is
instant order). -/
lemma utc_boundary_lt (d : String) :
    List.lt (d ++ "T00:00:00.000Z").data (d ++ "T23:59:59.999Z").data := by
  rw [String.data_append, String.data_append]
  apply list_lt_append_left
  refine List.lt.tail (by decide) (by decide) ?_
  exact List.lt.head _ _ (by decide)

/-- Every rendered instant carries a `T`. -/
lemma msToIso_contains_T (t : Int) : (msToIso t).data.contains 'T' = true := by
  unfold msToIso
  simp [String.data_append]

/-- Every output of the normalizer carries an explicit time component. -/
lemma normalizeDateM_contains_T (env : JsEnv) (d : String) (isEnd : Bool)
    (tz : Option String) :
    (normalizeDateM env d isEnd tz).data.contains 'T' = true := by
  unfold normalizeDateM
  by_cases hT : d.data.contains 'T'
  · rw [if_pos hT]
    exact hT
  · rw [if_neg hT]
    by_cases hUtc : resolveTz env tz = "UTC"
    · rw [if_pos hUtc]
      cases isEnd <;> simp [String.data_append]
    · rw [if_neg hUtc]
      rcases h0 : ((splitHyphens d.data []).map jsNumber).getD 0 (some 0) with _ | y
      · simp only [h0]
        cases isEnd <;> simp [String.data_append]
      · rcases h1 : ((splitHyphens d.data []).map jsNumber).getD 1 (some 1) with _ | m
        · simp only [h0, h1]
          cases isEnd <;> simp [String.data_append]
        · rcases h2 : ((splitHyphens d.data []).map jsNumber).getD 2 (some 1) with _ | dd
          · simp only [h0, h1, h2]
            cases isEnd <;> simp [String.data_append]
          · simp only [h0, h1, h2]
            rcases hz : zoneBoundaryMs env y m dd isEnd (resolveTz env tz) with _ | t
            · simp only [hz]
              cases isEnd <;> simp [String.data_append]
            · simp only [hz]
              exact msToIso_contains_T t

/-- In a zone resolving to UTC, a bare day normalizes to the day with the
fixed boundary time attached. -/
lemma normalizeDateM_utc (env : JsEnv) (d : String) (tz : Option String)
    (isEnd : Bool) (hUtc : resolveTz env tz = "UTC")
    (hT : d.data.contains 'T' = false) :
    normalizeDateM env d isEnd tz =
      d ++ (if isEnd then "T23:59:59.999Z" else "T00:00:00.000Z") := by
  unfold normalizeDateM
  rw [if_neg (by rw [hT]; exact Bool.false_ne_true)]
  simp [hUtc]

/-! ## Claim C6 -/

/-- C6 amended: inputs already carrying a time component pass through
unchanged, and since every output carries one, normalization is idempotent.
When the resolved zone is UTC the start boundary is strictly below the end
boundary (in the lexicographic string order the program itself uses to
compare normalized dates, which on these canonical same-day outputs is
instant order).  For any other zone, the epoch instant computed for the
start of a civil day is at most the one for its end PROVIDED the zone
offsets reported at the two boundary instants differ by no more than the
elapsed local time (under 24 hours) — true of ordinary zone days but
violated by a calendar-skip transition such as Pacific/Apia on 2011-12-30,
which refutes the unrestricted claim. -/
theorem c6_normalize_boundary_order :
    (∀ (env : JsEnv) (d : String) (isEnd : Bool) (tz : Option String),
      d.data.contains 'T' = true → normalizeDateM env d isEnd tz = d) ∧
    (∀ (env : JsEnv) (d : String) (isEnd : Bool) (tz : Option String),
      normalizeDateM env (normalizeDateM env d isEnd tz) isEnd tz =
        normalizeDateM env d isEnd tz) ∧
    (∀ (env : JsEnv) (d : String) (tz : Option String),
      resolveTz env tz = "UTC" → d.data.contains 'T' = false →
      List.lt (normalizeDateM env d false tz).data
        (normalizeDateM env d true tz).data) ∧
    (∀ (env : JsEnv) (y m day : Int) (tz : String) (s e : Int),
      zoneBoundaryMs env y m day false tz = some s →
      zoneBoundaryMs env y m day true tz = some e →
      (∀ sh0 sh1 : Int,
        env.localeShift (env.sysLocalToEpoch y (m - 1) day 0 0 0 0) tz = some sh0 →
        env.localeShift (env.sysLocalToEpoch y (m - 1) day 23 59 59 999) tz = some sh1 →
        sh1 - sh0 ≤ env.sysLocalToEpoch y (m - 1) day 23 59 59 999 -
          env.sysLocalToEpoch y (m - 1) day 0 0 0 0) →
      s ≤ e) := by
  have hpass : ∀ (env : JsEnv) (d : String) (isEnd : Bool) (tz : Option String),
      d.data.contains 'T' = true → normalizeDateM env d isEnd tz = d := by
    intro env d isEnd tz h
    unfold normalizeDateM
    rw [if_pos h]
  refine ⟨hpass, ?_, ?_, ?_⟩
  · intro env d isEnd tz
    exact hpass env _ isEnd tz (normalizeDateM_contains_T env d isEnd tz)
  · intro env d tz hUtc hT
    rw [normalizeDateM_utc env d tz false hUtc hT,
      normalizeDateM_utc env d tz true hUtc hT]
    exact utc_boundary_lt d
  · intro env y m day tz s e hs he hshift
    simp only [zoneBoundaryMs] at hs he
    rcases Option.map_eq_some'.mp hs with ⟨sh0, hsh0, hfs⟩
    rcases Option.map_eq_some'.mp he with ⟨sh1, hsh1, hfe⟩
    simp at hsh0 hsh1 hfs hfe
    have hb := hshift sh0 sh1 hsh0 hsh1
    omega

/-- Witness for C6 at a concrete day in the UTC zone. -/
theorem c6_witness :
    List.lt (normalizeDateM apiaEnv "2025-06-30" false (some "UTC")).data
      (normalizeDateM apiaEnv "2025-06-30" true (some "UTC")).data :=
  c6_normalize_boundary_order.2.2.1 apiaEnv "2025-06-30" (some "UTC") rfl (by decide)

/-- C6 counterexample: in the (ideal-Intl) environment carrying the real
Pacific/Apia offsets around its calendar-skip day, the normalized start of
2011-12-30 is the instant 2011-12-30T10:00:00.000Z while the normalized end
is 2011-12-30T09:59:59.999Z: the start boundary is strictly AFTER the end
boundary, as instants and in the lexicographic string order the program uses,
refuting the claim for that IANA zone and day. -/
theorem c6_counterexample_apia :
    normalizeDateM apiaEnv "2011-12-30" false (some "Pacific/Apia") =
      "2011-12-30T10:00:00.000Z" ∧
    normalizeDateM apiaEnv "2011-12-30" true (some "Pacific/Apia") =
      "2011-12-30T09:59:59.999Z" ∧
    zoneBoundaryMs apiaEnv 2011 12 30 false "Pacific/Apia" = some 1325239200000 ∧
    zoneBoundaryMs apiaEnv 2011 12 30 true "Pacific/Apia" = some 1325239199999 ∧
    List.lt (normalizeDateM apiaEnv "2011-12-30" true (some "Pacific/Apia")).data
      (normalizeDateM apiaEnv "2011-12-30" false (some "Pacific/Apia")).data := by
  have h1 : normalizeDateM apiaEnv "2011-12-30" false (some "Pacific/Apia") =
      "2011-12-30T10:00:00.000Z" := by decide
  have h2 : normalizeDateM apiaEnv "2011-12-30" true (some "Pacific/Apia") =
      "2011-12-30T09:59:59.999Z" := by decide
  refine ⟨h1, h2, by decide, by decide, ?_⟩
  rw [h1, h2]
  repeat refine List.lt.tail (by decide) (by decide) ?_
  exact List.lt.head _ _ (by decide)

end UnifiedHistory
